import Mathlib

/-!
Shallow embedding of the contact-search core of `imessage-mcp`
(`src/contacts.ts`): the predicate builder, per-source counter and
paginated fetcher, cross-source aggregator, contact normalizer and the
search orchestrator, together with proofs of the spec's claims.

Modelling conventions:
* JavaScript strings are Lean `String`s; character-level operations
  (regex replace, `startsWith`, `.length`) are modelled on `List Char`.
  All strings involved are ASCII, where JS UTF-16 code units and Lean
  characters agree.
* JS numbers appearing as counts, limits and offsets are modelled as
  `Int`; the one fractional computation (`offset / limit` inside
  `Math.floor`) is modelled as flooring integer division `Int.fdiv`,
  proved below to agree with the rational `⌊offset / limit⌋` for every
  nonzero `limit`.  Division by zero, which in JS yields `NaN`/`Infinity`
  (not an integer), is modelled as `none`.
* A SQLite database together with the search predicate is abstracted to
  a `Source`: the ordered list of handle rows matching the predicate
  (the order being the query's `ORDER BY`), plus flags saying whether
  the count query or the fetch query throws.  `COUNT(*)` is the list
  length and `LIMIT l OFFSET o` is `(rows.drop o).take l`, with SQLite's
  convention that a negative `OFFSET` skips nothing.
-/

/-- The `handle_type` discriminator of the SQL union: `'phone'` or `'email'`. -/
inductive HandleType : Type
  | phone : HandleType
  | email : HandleType
deriving DecidableEq

/-- One row of the JOIN query (`ContactHandleRow` in the source): nullable
name fields plus a non-null handle tagged with its kind. -/
structure ContactHandleRow : Type where
  firstName : Option String
  lastName : Option String
  organization : Option String
  handle : String
  handle_type : HandleType
deriving DecidableEq

/-- Final output unit (`ContactInfo`): the source stores the handle in a
field called `phone` even when it is an email address. -/
structure ContactInfo : Type where
  name : String
  phone : String
deriving DecidableEq

/-- JS truthiness of a `string | null | undefined` value: both absence and
the empty string are falsy. -/
def strTruthy : Option String → Bool
  | none => false
  | some s => !(s == "")

/-- JS `Array.join(" ")`: the empty string for an empty array, otherwise
the elements separated by single spaces. -/
def joinSpace : List String → String
  | [] => ""
  | [a] => a
  | a :: b :: rest => a ++ " " ++ joinSpace (b :: rest)

/-- `buildFullName` from the source: push `firstName` and `lastName` when
truthy, fall back to `organization` when no part was pushed, join with a
single space, and replace an empty join by `"Unknown"`
(`nameParts.join(" ") || "Unknown"`). -/
def buildFullName (firstName lastName organization : Option String) : String :=
  let nameParts : List String :=
    (if strTruthy firstName then [firstName.getD ""] else []) ++
      (if strTruthy lastName then [lastName.getD ""] else [])
  let nameParts :=
    if nameParts.length = 0 && strTruthy organization then [organization.getD ""]
    else nameParts
  let joined := joinSpace nameParts
  if joined == "" then "Unknown" else joined

/-- The character class kept by the regex replace
`phone.replace(/[^\d+]/g, "")`: ASCII digits and `'+'`, wherever they
occur in the string. -/
def isPhoneKeep (c : Char) : Bool := c.isDigit || c == '+'

/-- The `cleaned` string of `normalizePhoneNumber`, at character-list
level: drop every character that is neither a digit nor `'+'`. -/
def cleanChars (l : List Char) : List Char := l.filter isPhoneKeep

/-- Character-list body of `normalizePhoneNumber`.  `startsWith "+"` is
the head test, `` `+1${cleaned}` `` is `'+' :: '1' :: cleaned`, and the
final `cleaned || phone` returns the original character list when
`cleaned` is empty. -/
def normalizeChars (l : List Char) : List Char :=
  let cleaned := cleanChars l
  if cleaned.head? = some '+' then cleaned
  else if cleaned.length = 10 then '+' :: '1' :: cleaned
  else if cleaned.length = 11 ∧ cleaned.head? = some '1' then '+' :: cleaned
  else if cleaned = [] then l
  else cleaned

/-- `normalizePhoneNumber` from the source, as a `String → String`
wrapper around `normalizeChars`. -/
def normalizePhoneNumber (phone : String) : String :=
  String.mk (normalizeChars phone.toList)

/-- The `WHERE` fragment of the zero-parameter predicate (`firstName`
empty, `lastName` falsy): any record with at least one name field. -/
def anyNameNotNullClause : String :=
  "(r.ZFIRSTNAME IS NOT NULL OR r.ZLASTNAME IS NOT NULL OR r.ZORGANIZATION IS NOT NULL)"

/-- The `WHERE` fragment used when `lastName` is truthy: first-name AND
last-name substring match, plus the any-name-field constraint.  The
literal whitespace of the TS template string is kept. -/
def bothNamesClause : String :=
  "\n        (r.ZFIRSTNAME LIKE ? AND r.ZLASTNAME LIKE ?)\n        AND (r.ZFIRSTNAME IS NOT NULL OR r.ZLASTNAME IS NOT NULL OR r.ZORGANIZATION IS NOT NULL)\n      "

/-- The `WHERE` fragment used when only `firstName` is truthy: one term
matched against all four name fields, plus the any-name-field
constraint. -/
def firstNameAnyFieldClause : String :=
  "\n      (r.ZFIRSTNAME LIKE ? OR r.ZLASTNAME LIKE ? OR r.ZORGANIZATION LIKE ? OR r.ZNICKNAME LIKE ?)\n      AND (r.ZFIRSTNAME IS NOT NULL OR r.ZLASTNAME IS NOT NULL OR r.ZORGANIZATION IS NOT NULL)\n    "

/-- Result of `buildWhereClause`: a SQL fragment with positional
placeholders and its ordered parameter list. -/
structure WherePredicate : Type where
  whereClause : String
  params : List String
deriving DecidableEq

/-- The `%term%` wildcard pattern of a LIKE parameter. -/
def likePattern (term : String) : String := "%" ++ term ++ "%"

/-- `buildWhereClause` from the source.  The TS guards are
`firstName === "" && !lastName` and `if (lastName)`: an empty-string
`lastName` is falsy in JS, so it selects the same branch as an absent
one. -/
def buildWhereClause (firstName : String) (lastName : Option String) : WherePredicate :=
  if firstName == "" && !(strTruthy lastName) then
    { whereClause := anyNameNotNullClause, params := [] }
  else if strTruthy lastName then
    { whereClause := bothNamesClause,
      params := [likePattern firstName, likePattern (lastName.getD "")] }
  else
    { whereClause := firstNameAnyFieldClause,
      params := [likePattern firstName, likePattern firstName,
        likePattern firstName, likePattern firstName] }

/-- Derived display name of a raw row (`buildFullName` applied to its
name fields). -/
def deriveName (row : ContactHandleRow) : String :=
  buildFullName row.firstName row.lastName row.organization

/-- Derived handle of a raw row: phones are normalized, emails pass
through unchanged. -/
def deriveHandle (row : ContactHandleRow) : String :=
  match row.handle_type with
  | HandleType.phone => normalizePhoneNumber row.handle
  | HandleType.email => row.handle

/-- The deduplication key `` `${name}|${handle}` `` of
`transformToContactInfo`. -/
def contactKey (name handle : String) : String := name ++ "|" ++ handle

/-- Deduplication key of a raw row, via its derived name and handle. -/
def rowKey (row : ContactHandleRow) : String :=
  contactKey (deriveName row) (deriveHandle row)

/-- Deduplication key of an output entry. -/
def entryKey (e : ContactInfo) : String := contactKey e.name e.phone

/-- Loop of `transformToContactInfo`, with the `seen` set of keys made
explicit: skip rows whose derived handle is empty (`if (!handle)`), skip
rows whose key was already seen, and otherwise emit the entry and record
its key. -/
def transformGo (seen : List String) : List ContactHandleRow → List ContactInfo
  | [] => []
  | row :: rest =>
    let name := deriveName row
    let handle := deriveHandle row
    if handle = "" then transformGo seen rest
    else if contactKey name handle ∈ seen then transformGo seen rest
    else { name := name, phone := handle } :: transformGo (contactKey name handle :: seen) rest

/-- `transformToContactInfo` from the source: normalization plus
first-occurrence deduplication, starting from an empty `seen` set. -/
def transformToContactInfo (rows : List ContactHandleRow) : List ContactInfo :=
  transformGo [] rows

/-- One AddressBook database as seen through the fixed search predicate:
the ordered list of matching handle rows (the order of the query's
`ORDER BY lastName, firstName, handle`), plus whether its count query or
its fetch query throws. -/
structure Source : Type where
  rows : List ContactHandleRow
  countFails : Bool
  fetchFails : Bool
deriving DecidableEq

/-- `countContactHandles`: the count query returns the number of
matching rows (phones plus emails), or throws. -/
def countContactHandles (db : Source) : Except String Nat :=
  if db.countFails then Except.error "count failed" else Except.ok db.rows.length

/-- `fetchContactHandles`: the data query returns the `LIMIT limit
OFFSET offset` slice of the ordered matching rows, or throws.  SQLite
skips nothing for a negative `OFFSET`, which `Int.toNat` mirrors; the
aggregator only ever calls this with `limit ≥ 1`. -/
def fetchContactHandles (db : Source) (limit offset : Int) :
    Except String (List ContactHandleRow) :=
  if db.fetchFails then Except.error "fetch failed"
  else Except.ok ((db.rows.drop offset.toNat).take limit.toNat)

/-- Loop state of `searchContactHandlesAcrossDatabases`: the running
total, the yet-unconsumed global offset, the remaining page capacity and
the rows collected so far.  `fetchTrace` is ghost instrumentation with
one entry per processed source: `some (l, o)` when a fetch query with
`LIMIT l OFFSET o` was issued against that source (even if it failed),
`none` when no fetch query was issued. -/
structure AggSt : Type where
  total : Int
  remainingOffset : Int
  remainingLimit : Int
  results : List ContactHandleRow
  fetchTrace : List (Option (Int × Int))
deriving DecidableEq

/-- One iteration of the aggregator's per-database loop, including its
`try`/`catch`: a count failure skips the source before its count is
added; after the count is added, a source is skipped without fetching
when the remaining offset swallows it or the page is full; a fetch
failure is caught after the count was already added, leaving offset,
limit and results untouched. -/
def aggProcess (st : AggSt) (db : Source) : AggSt :=
  match countContactHandles db with
  | Except.error _ => { st with fetchTrace := st.fetchTrace ++ [none] }
  | Except.ok dbCount =>
    let st1 : AggSt := { st with total := st.total + (dbCount : Int) }
    if st1.remainingOffset ≥ (dbCount : Int) then
      { st1 with
        remainingOffset := st1.remainingOffset - (dbCount : Int),
        fetchTrace := st1.fetchTrace ++ [none] }
    else if st1.remainingLimit ≤ 0 then
      { st1 with fetchTrace := st1.fetchTrace ++ [none] }
    else
      match fetchContactHandles db st1.remainingLimit st1.remainingOffset with
      | Except.error _ =>
        { st1 with
          fetchTrace := st1.fetchTrace ++ [some (st1.remainingLimit, st1.remainingOffset)] }
      | Except.ok rows =>
        { st1 with
          results := st1.results ++ rows,
          remainingOffset := 0,
          remainingLimit := st1.remainingLimit - (rows.length : Int),
          fetchTrace := st1.fetchTrace ++ [some (st1.remainingLimit, st1.remainingOffset)] }

/-- Full final loop state of the aggregator over an ordered list of
sources. -/
def searchAggState (databases : List Source) (limit offset : Int) : AggSt :=
  databases.foldl aggProcess
    { total := 0, remainingOffset := offset, remainingLimit := limit,
      results := [], fetchTrace := [] }

/-- `searchContactHandlesAcrossDatabases` from the source: the collected
rows and the grand total. -/
def searchContactHandlesAcrossDatabases (databases : List Source) (limit offset : Int) :
    List ContactHandleRow × Int :=
  let st := searchAggState databases limit offset
  (st.results, st.total)

/-- Line 353 of the source: `offset + limit < total`. -/
def hasMoreOf (total limit offset : Int) : Bool := offset + limit < total

/-- Line 354 of the source: `Math.floor(offset / limit) + 1`.  For a
nonzero divisor, `Math.floor` of the exact quotient is flooring integer
division `Int.fdiv` (proved as `floor_intCast_div_intCast` below); for
`limit = 0` the JS division produces `NaN`/`Infinity`, which `Math.floor`
keeps and `+ 1` preserves, so the result is no integer: `none`. -/
def pageOf (limit offset : Int) : Option Int :=
  if limit = 0 then none else some (Int.fdiv offset limit + 1)

/-- Line 355 of the source: `limit > 0 ? Math.ceil(total / limit) : 0`,
with `Math.ceil` of the exact quotient rendered as `⌈x⌉ = -⌊-x⌋` in
flooring integer division (proved equal to the rational ceiling in
`ceil_intCast_div_intCast` below). -/
def totalPagesOf (total limit : Int) : Int :=
  if 0 < limit then -(Int.fdiv (-total) limit) else 0

/-- The `pagination` object of a `PaginatedResult`.  `page` is an
`Option` because JS produces the non-integer `NaN`/`Infinity` when
`limit = 0`. -/
structure PaginationWindow : Type where
  total : Int
  limit : Int
  offset : Int
  hasMore : Bool
  page : Option Int
  totalPages : Int
deriving DecidableEq

/-- `PaginatedResult<ContactInfo>` from the source. -/
structure PaginatedResult : Type where
  data : List ContactInfo
  pagination : PaginationWindow
deriving DecidableEq

/-- `searchContactsByName` from the source: aggregate across databases,
normalize and deduplicate, and attach pagination metadata.  The
`firstName`/`lastName` arguments select each source's matching row set,
which the `Source` abstraction already carries, so they are threaded
only for signature fidelity.  Nothing in the body can throw, so the
surrounding `try`/`catch` re-wrap never fires. -/
def searchContactsByName (contactsDatabases : List Source)
    (firstName : String) (lastName : Option String)
    (limit offset : Int) : PaginatedResult :=
  let fetched := searchContactHandlesAcrossDatabases contactsDatabases limit offset
  let data := transformToContactInfo fetched.1
  let total := fetched.2
  { data := data,
    pagination :=
      { total := total, limit := limit, offset := offset,
        hasMore := hasMoreOf total limit offset,
        page := pageOf limit offset,
        totalPages := totalPagesOf total limit } }


/-- Modelled from the spec's words for the phone-normalization sentence
of the claim: strip every character except digits and a LEADING `'+'`
(an interior `'+'` is stripped, unlike the code's regex, which keeps
every `'+'`). -/
def claimedClean (l : List Char) : List Char :=
  match l with
  | '+' :: rest => '+' :: rest.filter Char.isDigit
  | l => l.filter Char.isDigit

/-- Modelled from the spec's words for the phone-normalization claim:
the normalization procedure exactly as the claim states it, with
`claimedClean` as the cleaning step. -/
def normalizePhoneClaimed (phone : String) : String :=
  let cleaned := claimedClean phone.toList
  if cleaned.head? = some '+' then String.mk cleaned
  else if cleaned.length = 10 then String.mk ('+' :: '1' :: cleaned)
  else if cleaned.length = 11 ∧ cleaned.head? = some '1' then String.mk ('+' :: cleaned)
  else if cleaned = [] then phone
  else String.mk cleaned

/-- The amended cleaning step, written independently of the code as a
plain recursion: keep digits and `'+'` wherever they occur. -/
def amendedClean : List Char → List Char
  | [] => []
  | c :: cs =>
    if ('0' ≤ c ∧ c ≤ '9') ∨ c = '+' then c :: amendedClean cs else amendedClean cs

/-- The amended phone-normalization procedure: the claim's steps with
the cleaning corrected to keep every `'+'` and the digit-count tests
read as length tests on the cleaned string. -/
def normalizePhoneAmended (phone : String) : String :=
  let cleaned := amendedClean phone.toList
  if cleaned.head? = some '+' then String.mk cleaned
  else if cleaned.length = 10 then String.mk ('+' :: '1' :: cleaned)
  else if cleaned.length = 11 ∧ cleaned.head? = some '1' then String.mk ('+' :: cleaned)
  else if cleaned = [] then phone
  else String.mk cleaned

/-- Derived output entry of a raw row, or `none` when the derived handle
is empty and the row is dropped. -/
def rowEntry? (row : ContactHandleRow) : Option ContactInfo :=
  if deriveHandle row = "" then none
  else some { name := deriveName row, phone := deriveHandle row }

/-- Reference first-occurrence deduplication by key, written
independently of the code's `seen`-set loop: keep the head and remove
every later entry with the same key. -/
def specDedup : List ContactInfo → List ContactInfo
  | [] => []
  | e :: rest => e :: specDedup (rest.filter fun x => decide (entryKey x ≠ entryKey e))
termination_by l => l.length
decreasing_by
  simp only [List.length_cons]
  exact Nat.lt_succ_of_le (List.length_filter_le _ _)

/-- A row with the given handle and no name fields (an email row, so the
handle passes through normalization unchanged). -/
def mkRow (h : String) : ContactHandleRow :=
  { firstName := none, lastName := none, organization := none,
    handle := h, handle_type := HandleType.email }

/-- A healthy source with three matching rows. -/
def srcOne : Source :=
  { rows := [mkRow "a1", mkRow "a2", mkRow "a3"], countFails := false, fetchFails := false }

/-- A healthy source with five matching rows. -/
def srcTwo : Source :=
  { rows := [mkRow "b1", mkRow "b2", mkRow "b3", mkRow "b4", mkRow "b5"],
    countFails := false, fetchFails := false }

/-- A healthy source with two matching rows. -/
def srcThree : Source :=
  { rows := [mkRow "c1", mkRow "c2"], countFails := false, fetchFails := false }

/-- A source with three matching rows whose fetch query throws after its
count query has succeeded. -/
def srcFetchFail : Source :=
  { rows := [mkRow "f1", mkRow "f2", mkRow "f3"], countFails := false, fetchFails := true }

/-- A raw row whose derived name is `"a|b"` and handle `"c"`. -/
def rowPipeName : ContactHandleRow :=
  { firstName := some "a|b", lastName := none, organization := none,
    handle := "c", handle_type := HandleType.email }

/-- A raw row whose derived name is `"a"` and handle `"b|c"`: a distinct
(name, handle) pair with the same `name|handle` key as `rowPipeName`. -/
def rowPipeHandle : ContactHandleRow :=
  { firstName := some "a", lastName := none, organization := none,
    handle := "b|c", handle_type := HandleType.email }

/-- Flooring division is invariant under negating both arguments. -/
theorem fdiv_neg_neg (a b : Int) : (-a).fdiv (-b) = a.fdiv b := by
  rcases eq_or_ne b 0 with rfl | hb
  · simp
  · rcases a with (_ | m) | m <;> rcases b with (_ | n) | n <;>
      first
        | rfl
        | exact absurd rfl hb

/-- For a positive divisor, `Math.floor` of the exact quotient is
flooring (here also Euclidean) integer division. -/
theorem floor_intCast_div_intCast_pos (a b : Int) (hb : 0 < b) :
    ⌊(a : ℚ) / (b : ℚ)⌋ = a.fdiv b := by
  have hb0 : (b.toNat : ℤ) = b := Int.toNat_of_nonneg (le_of_lt hb)
  have hcast : ((b.toNat : ℕ) : ℚ) = (b : ℚ) := by
    exact_mod_cast congrArg (fun z : ℤ => (z : ℚ)) hb0
  calc ⌊(a : ℚ) / (b : ℚ)⌋
      = ⌊(a : ℚ) / ((b.toNat : ℕ) : ℚ)⌋ := by rw [hcast]
    _ = a / (b.toNat : ℤ) := Rat.floor_intCast_div_natCast a b.toNat
    _ = a / b := by rw [hb0]
    _ = a.fdiv b := (Int.fdiv_eq_ediv a (le_of_lt hb)).symm

/-- For every nonzero divisor, `Math.floor` of the exact quotient is
flooring integer division: `pageOf` computes the source's
`Math.floor(offset / limit)`. -/
theorem floor_intCast_div_intCast (a b : Int) (hb : b ≠ 0) :
    ⌊(a : ℚ) / (b : ℚ)⌋ = a.fdiv b := by
  rcases lt_or_gt_of_ne hb with hneg | hpos
  · have h1 : ⌊(a : ℚ) / (b : ℚ)⌋ = ⌊((-a : ℤ) : ℚ) / ((-b : ℤ) : ℚ)⌋ := by
      rw [Int.cast_neg, Int.cast_neg, neg_div_neg_eq]
    rw [h1, floor_intCast_div_intCast_pos (-a) (-b) (by omega), fdiv_neg_neg]
  · exact floor_intCast_div_intCast_pos a b hpos

/-- For a positive divisor, `Math.ceil` of the exact quotient is the
negated flooring division of the negated numerator: `totalPagesOf`
computes the source's `Math.ceil(total / limit)`. -/
theorem ceil_intCast_div_intCast (a b : Int) (hb : 0 < b) :
    ⌈(a : ℚ) / (b : ℚ)⌉ = -((-a).fdiv b) := by
  have h1 : ⌈(a : ℚ) / (b : ℚ)⌉ = -⌊-((a : ℚ) / (b : ℚ))⌋ := by
    rw [Int.floor_neg, neg_neg]
  rw [h1, ← neg_div, show -(a : ℚ) = ((-a : ℤ) : ℚ) by push_cast; ring,
    floor_intCast_div_intCast_pos (-a) b hb]

/-- The running total after one aggregator step: the source's count is
added unless its count query failed, whatever else the step does. -/
theorem aggProcess_total (st : AggSt) (s : Source) :
    (aggProcess st s).total =
      st.total + (if s.countFails then 0 else (s.rows.length : Int)) := by
  by_cases hc : s.countFails
  · simp [aggProcess, countContactHandles, hc]
  · by_cases hf : s.fetchFails <;>
      simp [aggProcess, countContactHandles, fetchContactHandles, hc, hf] <;>
      split_ifs <;> simp

/-- One aggregator step never decreases the running total. -/
theorem aggProcess_total_mono (st : AggSt) (s : Source) :
    st.total ≤ (aggProcess st s).total := by
  rw [aggProcess_total]
  split_ifs <;> omega

/-- Folding the aggregator over sources whose count queries succeed adds
exactly the sum of their counts to the running total. -/
theorem foldl_aggProcess_total (dbs : List Source) (st : AggSt)
    (h : ∀ s ∈ dbs, s.countFails = false) :
    (List.foldl aggProcess st dbs).total =
      st.total + (dbs.map fun s => (s.rows.length : Int)).sum := by
  induction dbs generalizing st with
  | nil => simp
  | cons s rest ih =>
    have hs : s.countFails = false := h s (List.mem_cons_self s rest)
    have hr : ∀ x ∈ rest, x.countFails = false :=
      fun x hx => h x (List.mem_cons_of_mem s hx)
    simp only [List.foldl_cons, List.map_cons, List.sum_cons, ih _ hr, aggProcess_total, hs]
    simp
    ring

/-- Folding the aggregator preserves nonnegativity of the running total. -/
theorem foldl_aggProcess_total_nonneg (dbs : List Source) :
    ∀ st : AggSt, 0 ≤ st.total → 0 ≤ (List.foldl aggProcess st dbs).total := by
  induction dbs with
  | nil => intro st h; simpa using h
  | cons s rest ih =>
    intro st h
    exact ih _ (le_trans h (aggProcess_total_mono st s))

/-- The aggregator's grand total is never negative. -/
theorem searchAggState_total_nonneg (dbs : List Source) (limit offset : Int) :
    0 ≤ (searchAggState dbs limit offset).total :=
  foldl_aggProcess_total_nonneg dbs _ (by simp)

/-- C1: with per-source counts [3, 5, 2] and `limit = 4, offset = 2`,
the aggregator issues a fetch against source 1 with source-local offset
2 which returns its last 1 row, a fetch against source 2 with
source-local offset 0 which returns 3 rows, and no fetch against source
3; it returns exactly 4 rows and reports `total = 10`. -/
theorem aggregation_arithmetic_3_5_2 :
    searchAggState [srcOne, srcTwo, srcThree] 4 2 =
      { total := 10, remainingOffset := 0, remainingLimit := 0,
        results := [mkRow "a3", mkRow "b1", mkRow "b2", mkRow "b3"],
        fetchTrace := [some (4, 2), some (3, 0), none] } ∧
    searchContactHandlesAcrossDatabases [srcOne, srcTwo, srcThree] 4 2 =
      ([mkRow "a3", mkRow "b1", mkRow "b2", mkRow "b3"], 10) ∧
    (searchContactHandlesAcrossDatabases [srcOne, srcTwo, srcThree] 4 2).1.length = 4 ∧
    (srcOne.rows.drop 2).take 4 = [mkRow "a3"] ∧
    (srcTwo.rows.drop 0).take 3 = [mkRow "b1", mkRow "b2", mkRow "b3"] := by
  decide

/-- C2: when no per-source query fails, the aggregator's reported total
is the sum of every source's match count, for every limit and offset —
in particular for sources reached after the page is already full. -/
theorem aggregator_total_is_sum_of_counts (dbs : List Source) (limit offset : Int)
    (h : ∀ s ∈ dbs, s.countFails = false ∧ s.fetchFails = false) :
    (searchContactHandlesAcrossDatabases dbs limit offset).2 =
      (dbs.map fun s => (s.rows.length : Int)).sum := by
  have h' : ∀ s ∈ dbs, s.countFails = false := fun s hs => (h s hs).1
  simp [searchContactHandlesAcrossDatabases, searchAggState,
    foldl_aggProcess_total dbs _ h']

/-- Witness for C2 at `limit = 0`: the page is full from the start, yet
all three counts land in the total. -/
theorem aggregator_total_is_sum_of_counts_witness :
    (searchContactHandlesAcrossDatabases [srcOne, srcTwo, srcThree] 0 2).2 =
      ([srcOne, srcTwo, srcThree].map fun s => (s.rows.length : Int)).sum :=
  aggregator_total_is_sum_of_counts [srcOne, srcTwo, srcThree] 0 2 (by decide)

/-- C8: a failing count query leaves the state unchanged (the source is
skipped entirely and later sources proceed from the same state); a fetch
query that fails after its count was added leaves that count in the
total without appending any rows; concretely, with a fetch-failing
middle source the call still returns the healthy sources' rows and a
total (8) that exceeds the number of returned rows (5). -/
theorem aggregator_per_source_failure :
    (∀ (st : AggSt) (s : Source), s.countFails = true →
      aggProcess st s = { st with fetchTrace := st.fetchTrace ++ [none] }) ∧
    (∀ (st : AggSt) (s : Source), s.countFails = false → s.fetchFails = true →
      st.remainingOffset < (s.rows.length : Int) → 0 < st.remainingLimit →
      aggProcess st s =
        { st with
          total := st.total + (s.rows.length : Int),
          fetchTrace := st.fetchTrace ++ [some (st.remainingLimit, st.remainingOffset)] }) ∧
    searchContactHandlesAcrossDatabases [srcOne, srcFetchFail, srcThree] 10 0 =
      ([mkRow "a1", mkRow "a2", mkRow "a3", mkRow "c1", mkRow "c2"], 8) ∧
    ((searchContactHandlesAcrossDatabases [srcOne, srcFetchFail, srcThree] 10 0).1.length : Int)
      < (searchContactHandlesAcrossDatabases [srcOne, srcFetchFail, srcThree] 10 0).2 := by
  refine ⟨?_, ?_, by decide, by decide⟩
  · intro st s hc
    simp [aggProcess, countContactHandles, hc]
  · intro st s hc hf hoff hlim
    simp [aggProcess, countContactHandles, fetchContactHandles, hc, hf,
      not_le.mpr hoff, not_le.mpr hlim]

/-- Witness for C8: both failure shapes at a concrete state and source. -/
theorem aggregator_per_source_failure_witness :
    aggProcess
        { total := 0, remainingOffset := 0, remainingLimit := 5,
          results := [], fetchTrace := [] }
        { rows := [mkRow "x1"], countFails := true, fetchFails := false } =
      { total := 0, remainingOffset := 0, remainingLimit := 5,
        results := [], fetchTrace := [none] } ∧
    aggProcess
        { total := 0, remainingOffset := 0, remainingLimit := 5,
          results := [], fetchTrace := [] }
        srcFetchFail =
      { total := 3, remainingOffset := 0, remainingLimit := 5,
        results := [], fetchTrace := [some (5, 0)] } := by
  constructor
  · exact aggregator_per_source_failure.1 _ _ rfl
  · exact aggregator_per_source_failure.2.1 _ srcFetchFail rfl rfl (by decide) (by decide)

/-- C3: the orchestrator's pagination metadata satisfies
`hasMore = (offset + limit < total)`,
`page = floor(offset / limit) + 1` (an integer whenever `limit ≠ 0`,
with `floor` taken of the exact rational quotient), and
`totalPages = ceil(total / limit)` for `limit > 0`; in particular
`offset + limit = total` gives `hasMore = false`,
`offset + limit < total` gives `hasMore = true`, and `limit ≤ 0` gives
`totalPages = 0`. -/
theorem pagination_metadata_formulas (total limit offset : Int)
    (htotal : 0 ≤ total) (hoffset : 0 ≤ offset) :
    hasMoreOf total limit offset = decide (offset + limit < total) ∧
    (limit ≠ 0 → pageOf limit offset = some (⌊(offset : ℚ) / (limit : ℚ)⌋ + 1)) ∧
    (0 < limit → totalPagesOf total limit = ⌈(total : ℚ) / (limit : ℚ)⌉) ∧
    (offset + limit = total → hasMoreOf total limit offset = false) ∧
    (offset + limit < total → hasMoreOf total limit offset = true) ∧
    (limit ≤ 0 → totalPagesOf total limit = 0) := by
  refine ⟨rfl, ?_, ?_, ?_, ?_, ?_⟩
  · intro hl
    simp [pageOf, hl, floor_intCast_div_intCast offset limit hl]
  · intro hl
    simp [totalPagesOf, hl, ceil_intCast_div_intCast total limit hl]
  · intro he
    simp [hasMoreOf]
    omega
  · intro hlt
    simp [hasMoreOf]
    omega
  · intro hle
    simp [totalPagesOf]
    omega

/-- Witness for C3 at `total = 10, limit = 4, offset = 2`. -/
theorem pagination_metadata_formulas_witness :
    hasMoreOf 10 4 2 = decide ((2 : Int) + 4 < 10) ∧
    ((4 : Int) ≠ 0 → pageOf 4 2 = some (⌊(2 : ℚ) / (4 : ℚ)⌋ + 1)) ∧
    ((0 : Int) < 4 → totalPagesOf 10 4 = ⌈(10 : ℚ) / (4 : ℚ)⌉) ∧
    ((2 : Int) + 4 = 10 → hasMoreOf 10 4 2 = false) ∧
    ((2 : Int) + 4 < 10 → hasMoreOf 10 4 2 = true) ∧
    ((4 : Int) ≤ 0 → totalPagesOf 10 4 = 0) :=
  pagination_metadata_formulas 10 4 2 (by decide) (by decide)

/-- C9 counterexample: the successful call with `limit = -2`,
`offset = 1` (a nonnegative total and offset) returns `page = 0`, which
is not an integer `≥ 1` — the claimed well-formedness fails for a
negative `limit` (and for `limit = 0` the page is no integer at all). -/
theorem pagination_window_page_counterexample :
    (searchContactsByName [srcOne] "" none (-2) 1).pagination.page = some 0 ∧
    (searchContactsByName [srcOne] "" none (-2) 1).pagination.total = 3 ∧
    ¬(1 ≤ (0 : Int)) ∧
    (searchContactsByName [srcOne] "" none 0 1).pagination.page = none := by
  decide

/-- C9 amended: for every successful call with `limit ≥ 1` and
`offset ≥ 0`, the returned window has an integer `page ≥ 1` and
`totalPages ≥ 0`. -/
theorem pagination_window_wellformed (dbs : List Source) (firstName : String)
    (lastName : Option String) (limit offset : Int)
    (hl : 1 ≤ limit) (ho : 0 ≤ offset) :
    ∃ p : Int,
      (searchContactsByName dbs firstName lastName limit offset).pagination.page = some p ∧
      1 ≤ p ∧
      0 ≤ (searchContactsByName dbs firstName lastName limit offset).pagination.totalPages := by
  have hl0 : limit ≠ 0 := by omega
  have hpos : (0 : Int) < limit := by omega
  refine ⟨Int.fdiv offset limit + 1, ?_, ?_, ?_⟩
  · simp [searchContactsByName, pageOf, hl0]
  · have hd : 0 ≤ Int.fdiv offset limit := Int.fdiv_nonneg ho (by omega)
    omega
  · have htot : 0 ≤ (searchAggState dbs limit offset).total :=
      searchAggState_total_nonneg dbs limit offset
    have hshape :
        (searchContactsByName dbs firstName lastName limit offset).pagination.totalPages =
          totalPagesOf (searchAggState dbs limit offset).total limit := rfl
    rw [hshape, totalPagesOf, if_pos hpos, ← ceil_intCast_div_intCast _ _ hpos]
    exact Int.ceil_nonneg (div_nonneg (by exact_mod_cast htot) (by exact_mod_cast le_of_lt hpos))

/-- Witness for the amended C9 at a concrete call. -/
theorem pagination_window_wellformed_witness :
    ∃ p : Int,
      (searchContactsByName [srcOne] "" none 4 2).pagination.page = some p ∧
      1 ≤ p ∧
      0 ≤ (searchContactsByName [srcOne] "" none 4 2).pagination.totalPages :=
  pagination_window_wellformed [srcOne] "" none 4 2 (by decide) (by decide)

/-- A space-joined pair of strings is never empty. -/
theorem append_space_ne_empty (a b : String) : a ++ " " ++ b ≠ "" := by
  intro h
  have h2 := congrArg String.length h
  rw [String.length_append, String.length_append,
    show (" " : String).length = 1 from rfl] at h2
  simp at h2

/-- Truthiness of a present string is its non-emptiness. -/
theorem strTruthy_some (s : String) : strTruthy (some s) = !(s == "") := rfl

/-- C6 amended: `buildFullName` joins the non-null AND non-empty
firstName and lastName with a single space, in that order; when both are
null or empty it falls back to a non-empty organization; when that too
is null or empty it returns `"Unknown"` — including the claim's three
examples. -/
theorem buildFullName_characterization :
    (∀ (fn ln : String) (org : Option String), fn ≠ "" → ln ≠ "" →
      buildFullName (some fn) (some ln) org = fn ++ " " ++ ln) ∧
    (∀ (fn : String) (ln org : Option String), fn ≠ "" → strTruthy ln = false →
      buildFullName (some fn) ln org = fn) ∧
    (∀ (fn : Option String) (ln : String) (org : Option String),
      strTruthy fn = false → ln ≠ "" → buildFullName fn (some ln) org = ln) ∧
    (∀ (fn ln : Option String) (org : String), strTruthy fn = false →
      strTruthy ln = false → org ≠ "" → buildFullName fn ln (some org) = org) ∧
    (∀ fn ln org : Option String, strTruthy fn = false → strTruthy ln = false →
      strTruthy org = false → buildFullName fn ln org = "Unknown") ∧
    buildFullName none none none = "Unknown" ∧
    buildFullName none none (some "Acme Corp") = "Acme Corp" ∧
    buildFullName (some "Jane") (some "Doe") none = "Jane Doe" := by
  refine ⟨?_, ?_, ?_, ?_, ?_, by decide, by decide, by decide⟩
  · intro fn ln org hfn hln
    simp [buildFullName, strTruthy_some, hfn, hln, joinSpace, append_space_ne_empty]
  · intro fn ln org hfn hln
    simp [buildFullName, strTruthy_some, hfn, hln, joinSpace]
  · intro fn ln org hfn hln
    simp [buildFullName, strTruthy_some, hfn, hln, joinSpace]
  · intro fn ln org hfn hln horg
    simp [buildFullName, strTruthy_some, hfn, hln, horg, joinSpace]
  · intro fn ln org hfn hln horg
    simp [buildFullName, hfn, hln, horg, joinSpace]

/-- Witness for the amended C6. -/
theorem buildFullName_characterization_witness :
    buildFullName (some "Ada") (some "Lovelace") none = "Ada" ++ " " ++ "Lovelace" :=
  buildFullName_characterization.1 "Ada" "Lovelace" none (by decide) (by decide)

/-- C6 counterexample: a non-null but empty firstName is NOT joined —
the code returns `"Doe"`, while joining the non-null parts `""` and
`"Doe"` with a single space as the claim words it would give `" Doe"`. -/
theorem buildFullName_nonnull_claim_counterexample :
    buildFullName (some "") (some "Doe") none = "Doe" ∧
    joinSpace ["", "Doe"] = " Doe" ∧
    ("Doe" : String) ≠ " Doe" := by decide

/-- C7 amended: the predicate builder produces the zero-parameter
any-name-field shape when firstName is empty and lastName is absent OR
empty, the two-parameter conjunction shape when lastName is present and
non-empty, and otherwise the four-parameter disjunction shape with four
copies of the wildcarded firstName term. -/
theorem buildWhereClause_characterization :
    (∀ ln : Option String, strTruthy ln = false →
      buildWhereClause "" ln = { whereClause := anyNameNotNullClause, params := [] }) ∧
    (∀ fn ln : String, ln ≠ "" →
      buildWhereClause fn (some ln) =
        { whereClause := bothNamesClause, params := [likePattern fn, likePattern ln] }) ∧
    (∀ (fn : String) (ln : Option String), fn ≠ "" → strTruthy ln = false →
      buildWhereClause fn ln =
        { whereClause := firstNameAnyFieldClause,
          params := [likePattern fn, likePattern fn, likePattern fn, likePattern fn] }) := by
  refine ⟨?_, ?_, ?_⟩
  · intro ln hln
    simp [buildWhereClause, hln]
  · intro fn ln hln
    simp [buildWhereClause, strTruthy, hln]
  · intro fn ln hfn hln
    simp [buildWhereClause, hfn, hln]

/-- Witness for the amended C7. -/
theorem buildWhereClause_characterization_witness :
    buildWhereClause "Ann" (some "Lee") =
      { whereClause := bothNamesClause, params := [likePattern "Ann", likePattern "Lee"] } :=
  buildWhereClause_characterization.2.1 "Ann" "Lee" (by decide)

/-- C7 counterexample: with firstName empty and lastName present but
empty, the code returns the zero-parameter any-name-field predicate, not
the claimed two-parameter conjunction. -/
theorem buildWhereClause_empty_lastName_counterexample :
    buildWhereClause "" (some "") = { whereClause := anyNameNotNullClause, params := [] } ∧
    (buildWhereClause "" (some "")).params.length = 0 ∧
    (0 : Nat) ≠ 2 := by decide

/-- The kept-character test, as a proposition: ASCII digit or `'+'`. -/
theorem isPhoneKeep_iff (c : Char) :
    isPhoneKeep c = true ↔ (('0' ≤ c ∧ c ≤ '9') ∨ c = '+') := by
  simp [isPhoneKeep, Char.isDigit, Char.le_def]

/-- Every character surviving the cleaning pass is a kept character. -/
theorem isPhoneKeep_of_mem_cleanChars {c : Char} {l : List Char}
    (h : c ∈ cleanChars l) : isPhoneKeep c = true :=
  (List.mem_filter.mp h).2

/-- Cleaning a list of kept characters changes nothing. -/
theorem cleanChars_eq_self {l : List Char} (h : ∀ c ∈ l, isPhoneKeep c = true) :
    cleanChars l = l := List.filter_eq_self.mpr h

/-- Cleaning is idempotent. -/
theorem cleanChars_cleanChars (l : List Char) :
    cleanChars (cleanChars l) = cleanChars l :=
  cleanChars_eq_self fun _ hc => isPhoneKeep_of_mem_cleanChars hc

/-- Cleaning keeps a kept head character. -/
theorem cleanChars_cons_of_keep {c : Char} (h : isPhoneKeep c = true) (l : List Char) :
    cleanChars (c :: l) = c :: cleanChars l := by
  simp [cleanChars, List.filter_cons, h]

/-- The amended cleaning recursion agrees with the code's filter. -/
theorem amendedClean_eq_cleanChars (l : List Char) : amendedClean l = cleanChars l := by
  induction l with
  | nil => rfl
  | cons c cs ih =>
    simp only [amendedClean, cleanChars, List.filter_cons]
    by_cases h : ('0' ≤ c ∧ c ≤ '9') ∨ c = '+'
    · simp only [if_pos h, (isPhoneKeep_iff c).mpr h, if_pos]
      rw [ih, cleanChars]
    · have hb : ¬isPhoneKeep c = true := fun hk => h ((isPhoneKeep_iff c).mp hk)
      simp only [if_neg h, hb]
      rw [ih, cleanChars]
      simp

/-- The body of the normalizer is idempotent at character-list level. -/
theorem normalizeChars_idem (l : List Char) :
    normalizeChars (normalizeChars l) = normalizeChars l := by
  by_cases h1 : (cleanChars l).head? = some '+'
  · have e : normalizeChars l = cleanChars l := by
      simp only [normalizeChars]
      rw [if_pos h1]
    rw [e]
    simp only [normalizeChars, cleanChars_cleanChars]
    rw [if_pos h1]
  · by_cases h2 : (cleanChars l).length = 10
    · have e : normalizeChars l = '+' :: '1' :: cleanChars l := by
        simp only [normalizeChars]
        rw [if_neg h1, if_pos h2]
      rw [e]
      have hcc : cleanChars ('+' :: '1' :: cleanChars l) = '+' :: '1' :: cleanChars l := by
        rw [cleanChars_cons_of_keep (show isPhoneKeep '+' = true from rfl),
          cleanChars_cons_of_keep (show isPhoneKeep '1' = true from rfl),
          cleanChars_cleanChars]
      simp only [normalizeChars, hcc]
      rw [if_pos (show ('+' :: '1' :: cleanChars l).head? = some '+' from rfl)]
    · by_cases h3 : (cleanChars l).length = 11 ∧ (cleanChars l).head? = some '1'
      · have e : normalizeChars l = '+' :: cleanChars l := by
          simp only [normalizeChars]
          rw [if_neg h1, if_neg h2, if_pos h3]
        rw [e]
        have hcc : cleanChars ('+' :: cleanChars l) = '+' :: cleanChars l := by
          rw [cleanChars_cons_of_keep (show isPhoneKeep '+' = true from rfl),
            cleanChars_cleanChars]
        simp only [normalizeChars, hcc]
        rw [if_pos (show ('+' :: cleanChars l).head? = some '+' from rfl)]
      · by_cases h4 : cleanChars l = []
        · have e : normalizeChars l = l := by
            simp only [normalizeChars]
            rw [if_neg h1, if_neg h2, if_neg h3, if_pos h4]
          rw [e]
          exact e
        · have e : normalizeChars l = cleanChars l := by
            simp only [normalizeChars]
            rw [if_neg h1, if_neg h2, if_neg h3, if_neg h4]
          rw [e]
          simp only [normalizeChars, cleanChars_cleanChars]
          rw [if_neg h1, if_neg h2, if_neg h3, if_neg h4]

/-- C10: phone normalization is idempotent — an already-normalized
handle passes through unchanged. -/
theorem normalizePhoneNumber_idempotent (p : String) :
    normalizePhoneNumber (normalizePhoneNumber p) = normalizePhoneNumber p := by
  simp only [normalizePhoneNumber]
  rw [show (String.mk (normalizeChars p.toList)).toList = normalizeChars p.toList from rfl,
    normalizeChars_idem]

/-- C4 amended: `normalizePhoneNumber` agrees everywhere with the
claim's procedure once the cleaning step keeps every `'+'` (not only a
leading one) and the 10-digit / 11-digit tests are read as length tests
on the cleaned string; the claim's three concrete examples hold, and an
input cleaning to the empty string is returned unchanged. -/
theorem normalizePhoneNumber_follows_amended_spec :
    (∀ p : String, normalizePhoneNumber p = normalizePhoneAmended p) ∧
    normalizePhoneNumber "555-123-4567" = "+15551234567" ∧
    normalizePhoneNumber "15551234567" = "+15551234567" ∧
    normalizePhoneNumber "+44 20 7946 0958" = "+442079460958" ∧
    normalizePhoneNumber "()- " = "()- " := by
  refine ⟨?_, by decide, by decide, by decide, by decide⟩
  intro p
  obtain ⟨l⟩ := p
  simp only [normalizePhoneNumber, normalizePhoneAmended, normalizeChars,
    amendedClean_eq_cleanChars]
  split_ifs <;> rfl

/-- C4 counterexample: on `"5+551234567"` the code keeps the interior
`'+'` (11 characters, not starting with `'1'`, returned as are), while
the claim's strip-to-a-leading-`'+'` cleaning leaves 10 digits and so
prescribes the `"+1"` prefix. -/
theorem normalizePhoneNumber_interior_plus_counterexample :
    normalizePhoneNumber "5+551234567" = "5+551234567" ∧
    normalizePhoneClaimed "5+551234567" = "+15551234567" ∧
    ("5+551234567" : String) ≠ "+15551234567" := by decide

/-- Step lemma: a row with an empty derived handle is dropped. -/
theorem transformGo_cons_empty {row : ContactHandleRow} {rest : List ContactHandleRow}
    {seen : List String} (h : deriveHandle row = "") :
    transformGo seen (row :: rest) = transformGo seen rest := by
  simp only [transformGo]
  rw [if_pos h]

/-- Step lemma: a row whose key was already seen is dropped. -/
theorem transformGo_cons_seen {row : ContactHandleRow} {rest : List ContactHandleRow}
    {seen : List String} (h1 : ¬deriveHandle row = "")
    (h2 : contactKey (deriveName row) (deriveHandle row) ∈ seen) :
    transformGo seen (row :: rest) = transformGo seen rest := by
  simp only [transformGo]
  rw [if_neg h1, if_pos h2]

/-- Step lemma: a fresh row is emitted and its key recorded. -/
theorem transformGo_cons_new {row : ContactHandleRow} {rest : List ContactHandleRow}
    {seen : List String} (h1 : ¬deriveHandle row = "")
    (h2 : contactKey (deriveName row) (deriveHandle row) ∉ seen) :
    transformGo seen (row :: rest) =
      { name := deriveName row, phone := deriveHandle row } ::
        transformGo (contactKey (deriveName row) (deriveHandle row) :: seen) rest := by
  simp only [transformGo]
  rw [if_neg h1, if_neg h2]

/-- Two same-key filters over a growing seen set fuse into one filter
over the extended seen set. -/
theorem specDedup_nil : specDedup [] = [] := by
  rw [specDedup]

/-- Unfolding lemma for `specDedup` at a cons cell. -/
theorem specDedup_cons (e : ContactInfo) (rest : List ContactInfo) :
    specDedup (e :: rest) =
      e :: specDedup (rest.filter fun x => decide (entryKey x ≠ entryKey e)) := by
  rw [specDedup]

/-- Two same-key filters over a growing seen set fuse into one filter
over the extended seen set. -/
theorem filter_key_fusion (m : List ContactInfo) (k : String) (seen : List String) :
    (m.filter fun x => decide (entryKey x ∉ seen)).filter (fun x => decide (entryKey x ≠ k)) =
      m.filter fun x => decide (entryKey x ∉ k :: seen) := by
  rw [List.filter_filter]
  apply List.filter_congr
  intro x _
  by_cases h1 : entryKey x = k <;> by_cases h2 : entryKey x ∈ seen <;>
    simp [h1, h2, List.mem_cons]

/-- The code's seen-set loop computes the reference remove-later-
duplicates deduplication of the derived entries not yet seen. -/
theorem transformGo_eq_specDedup (rows : List ContactHandleRow) :
    ∀ seen : List String,
      transformGo seen rows =
        specDedup ((rows.filterMap rowEntry?).filter fun e => decide (entryKey e ∉ seen)) := by
  induction rows with
  | nil => intro seen; simp [transformGo, specDedup_nil]
  | cons row rest ih =>
    intro seen
    by_cases h1 : deriveHandle row = ""
    · rw [transformGo_cons_empty h1, ih seen]
      simp [List.filterMap_cons, rowEntry?, h1]
    · by_cases h2 : contactKey (deriveName row) (deriveHandle row) ∈ seen
      · rw [transformGo_cons_seen h1 h2, ih seen]
        have he : entryKey { name := deriveName row, phone := deriveHandle row } ∈ seen := h2
        simp [List.filterMap_cons, rowEntry?, h1, List.filter_cons, he]
      · rw [transformGo_cons_new h1 h2, ih]
        have he : entryKey { name := deriveName row, phone := deriveHandle row } ∉ seen := h2
        simp only [List.filterMap_cons, rowEntry?, if_neg h1, List.filter_cons, he,
          not_false_eq_true, decide_True, if_pos]
        rw [specDedup_cons]
        congr 1
        exact congrArg specDedup (filter_key_fusion _ _ _).symm

/-- The output never exceeds the input length. -/
theorem transformGo_length_le (rows : List ContactHandleRow) :
    ∀ seen : List String, (transformGo seen rows).length ≤ rows.length := by
  induction rows with
  | nil => intro seen; simp [transformGo]
  | cons row rest ih =>
    intro seen
    by_cases h1 : deriveHandle row = ""
    · rw [transformGo_cons_empty h1]
      exact le_trans (ih seen) (Nat.le_succ _)
    · by_cases h2 : contactKey (deriveName row) (deriveHandle row) ∈ seen
      · rw [transformGo_cons_seen h1 h2]
        exact le_trans (ih seen) (Nat.le_succ _)
      · rw [transformGo_cons_new h1 h2]
        simpa using Nat.succ_le_succ (ih _)

/-- No emitted entry carries a key from the initial seen set. -/
theorem entryKey_transformGo_not_seen (rows : List ContactHandleRow) :
    ∀ (seen : List String) (x : ContactInfo),
      x ∈ transformGo seen rows → entryKey x ∉ seen := by
  induction rows with
  | nil => intro seen x hx; simp [transformGo] at hx
  | cons row rest ih =>
    intro seen x hx
    by_cases h1 : deriveHandle row = ""
    · rw [transformGo_cons_empty h1] at hx
      exact ih seen x hx
    · by_cases h2 : contactKey (deriveName row) (deriveHandle row) ∈ seen
      · rw [transformGo_cons_seen h1 h2] at hx
        exact ih seen x hx
      · rw [transformGo_cons_new h1 h2] at hx
        rcases List.mem_cons.mp hx with rfl | hx2
        · exact h2
        · have hx3 := ih _ x hx2
          exact fun hs => hx3 (List.mem_cons_of_mem _ hs)

/-- Output keys are pairwise distinct. -/
theorem transformGo_pairwise (rows : List ContactHandleRow) :
    ∀ seen : List String,
      (transformGo seen rows).Pairwise fun a b => entryKey a ≠ entryKey b := by
  induction rows with
  | nil => intro seen; simp [transformGo]
  | cons row rest ih =>
    intro seen
    by_cases h1 : deriveHandle row = ""
    · rw [transformGo_cons_empty h1]
      exact ih seen
    · by_cases h2 : contactKey (deriveName row) (deriveHandle row) ∈ seen
      · rw [transformGo_cons_seen h1 h2]
        exact ih seen
      · rw [transformGo_cons_new h1 h2]
        refine List.Pairwise.cons ?_ (ih _)
        intro y hy he
        have hns := entryKey_transformGo_not_seen rest _ y hy
        exact hns (by rw [← he]; exact List.mem_cons_self _ _)

/-- Every emitted entry has a nonempty handle. -/
theorem transformGo_phone_ne (rows : List ContactHandleRow) :
    ∀ (seen : List String) (x : ContactInfo),
      x ∈ transformGo seen rows → x.phone ≠ "" := by
  induction rows with
  | nil => intro seen x hx; simp [transformGo] at hx
  | cons row rest ih =>
    intro seen x hx
    by_cases h1 : deriveHandle row = ""
    · rw [transformGo_cons_empty h1] at hx
      exact ih seen x hx
    · by_cases h2 : contactKey (deriveName row) (deriveHandle row) ∈ seen
      · rw [transformGo_cons_seen h1 h2] at hx
        exact ih seen x hx
      · rw [transformGo_cons_new h1 h2] at hx
        rcases List.mem_cons.mp hx with rfl | hx2
        · exact h1
        · exact ih _ x hx2

/-- Every emitted entry is the derived entry of some input row. -/
theorem transformGo_sound (rows : List ContactHandleRow) :
    ∀ (seen : List String) (x : ContactInfo), x ∈ transformGo seen rows →
      ∃ r ∈ rows, x.name = deriveName r ∧ x.phone = deriveHandle r := by
  induction rows with
  | nil => intro seen x hx; simp [transformGo] at hx
  | cons row rest ih =>
    intro seen x hx
    by_cases h1 : deriveHandle row = ""
    · rw [transformGo_cons_empty h1] at hx
      obtain ⟨r, hr, he⟩ := ih seen x hx
      exact ⟨r, List.mem_cons_of_mem _ hr, he⟩
    · by_cases h2 : contactKey (deriveName row) (deriveHandle row) ∈ seen
      · rw [transformGo_cons_seen h1 h2] at hx
        obtain ⟨r, hr, he⟩ := ih seen x hx
        exact ⟨r, List.mem_cons_of_mem _ hr, he⟩
      · rw [transformGo_cons_new h1 h2] at hx
        rcases List.mem_cons.mp hx with rfl | hx2
        · exact ⟨row, List.mem_cons_self _ _, rfl, rfl⟩
        · obtain ⟨r, hr, he⟩ := ih _ x hx2
          exact ⟨r, List.mem_cons_of_mem _ hr, he⟩

/-- Every input row with a nonempty derived handle has its key
represented in the output (or already in the initial seen set). -/
theorem transformGo_complete (rows : List ContactHandleRow) :
    ∀ seen : List String, ∀ r ∈ rows, deriveHandle r ≠ "" →
      rowKey r ∈ seen ∨ ∃ x ∈ transformGo seen rows, entryKey x = rowKey r := by
  induction rows with
  | nil => intro seen r hr; exact absurd hr (List.not_mem_nil r)
  | cons row rest ih =>
    intro seen r hr hne
    rcases List.mem_cons.mp hr with rfl | hr2
    · by_cases h2 : contactKey (deriveName r) (deriveHandle r) ∈ seen
      · exact Or.inl h2
      · rw [transformGo_cons_new hne h2]
        exact Or.inr ⟨_, List.mem_cons_self _ _, rfl⟩
    · by_cases h1 : deriveHandle row = ""
      · rw [transformGo_cons_empty h1]
        exact ih seen r hr2 hne
      · by_cases h2 : contactKey (deriveName row) (deriveHandle row) ∈ seen
        · rw [transformGo_cons_seen h1 h2]
          exact ih seen r hr2 hne
        · rw [transformGo_cons_new h1 h2]
          rcases ih (contactKey (deriveName row) (deriveHandle row) :: seen) r hr2 hne with
            hseen | ⟨x, hx, hk⟩
          · rcases List.mem_cons.mp hseen with heq | hseen2
            · refine Or.inr ⟨{ name := deriveName row, phone := deriveHandle row },
                List.mem_cons_self _ _, ?_⟩
              exact heq.symm
            · exact Or.inl hseen2
          · exact Or.inr ⟨x, List.mem_cons_of_mem _ hx, hk⟩

/-- C5 amended: `transformToContactInfo` drops rows with an empty
derived handle and collapses rows by equality of the key STRING
`name ++ "|" ++ handle` (not of the (name, handle) pair: distinct pairs
whose key strings coincide, possible when a name contains `'|'`, also
collapse), keeping the first occurrence in input order.  It equals the
reference remove-later-duplicates deduplication of the derived entries;
the output is no longer than the input, has pairwise-distinct keys,
consists of derived entries of input rows with nonempty handles, and
represents the key of every input row with a nonempty handle. -/
theorem transformToContactInfo_characterization :
    (∀ rows : List ContactHandleRow,
      transformToContactInfo rows = specDedup (rows.filterMap rowEntry?)) ∧
    (∀ rows : List ContactHandleRow,
      (transformToContactInfo rows).length ≤ rows.length) ∧
    (∀ rows : List ContactHandleRow,
      (transformToContactInfo rows).Pairwise fun a b => entryKey a ≠ entryKey b) ∧
    (∀ rows : List ContactHandleRow, ∀ x ∈ transformToContactInfo rows,
      x.phone ≠ "" ∧ ∃ r ∈ rows, x.name = deriveName r ∧ x.phone = deriveHandle r) ∧
    (∀ rows : List ContactHandleRow, ∀ r ∈ rows, deriveHandle r ≠ "" →
      ∃ x ∈ transformToContactInfo rows, entryKey x = rowKey r) := by
  refine ⟨?_, fun rows => transformGo_length_le rows [],
    fun rows => transformGo_pairwise rows [], ?_, ?_⟩
  · intro rows
    rw [transformToContactInfo, transformGo_eq_specDedup rows []]
    exact congrArg specDedup (List.filter_eq_self.mpr (by intro a _; simp))
  · intro rows x hx
    exact ⟨transformGo_phone_ne rows [] x hx, transformGo_sound rows [] x hx⟩
  · intro rows r hr hne
    rcases transformGo_complete rows [] r hr hne with hseen | h
    · exact absurd hseen (List.not_mem_nil _)
    · exact h

/-- Witness for the amended C5: the second pipe row's key is represented
in the output. -/
theorem transformToContactInfo_characterization_witness :
    ∃ x ∈ transformToContactInfo [rowPipeName, rowPipeHandle],
      entryKey x = rowKey rowPipeHandle :=
  transformToContactInfo_characterization.2.2.2.2 [rowPipeName, rowPipeHandle]
    rowPipeHandle (by decide) (by decide)

/-- C5 counterexample: the rows (name `"a|b"`, handle `"c"`) and (name
`"a"`, handle `"b|c"`) have distinct (name, handle) pairs but the same
key string `"a|b|c"`, and the code collapses them to one entry. -/
theorem transform_distinct_pairs_collapse_counterexample :
    transformToContactInfo [rowPipeName, rowPipeHandle] =
      [{ name := "a|b", phone := "c" }] ∧
    deriveName rowPipeName ≠ deriveName rowPipeHandle ∧
    deriveHandle rowPipeName ≠ deriveHandle rowPipeHandle ∧
    rowKey rowPipeName = rowKey rowPipeHandle := by decide
